import Mathlib

set_option maxHeartbeats 1000000

/-!
Shallow embedding of the catmark ANSI renderer (src/ansi_renderer.rs):
the box-model document tree, the layout engine with its split/reject
outcomes, the border renderer's glyph selection, the 256-color palette
quantization, and the builder operations referenced by the claims.

Strings are modelled at the granularity the source manipulates them:
a text is the list of extended grapheme clusters produced by the external
unicode-segmentation crate, each cluster carrying its text and the
terminal display width assigned by the external unicode-width crate
(display width is additive over clusters, so the width of a string is the
sum of the widths of its clusters). The byte offsets that
grapheme_indices returns for cluster boundaries correspond to indices
into this list, so findsplit returns a cluster index here.

u16 arithmetic is embedded as Nat with explicit wrap-around modulo 2^16
(wadd / wsub), the release-mode semantics of the source. Possible
non-termination of the layout loops (continuation nodes are spliced in
and laid out again) is handled by a fuel parameter; a fatal panic in the
source is the LOut.fatal outcome, kept distinct from running out of fuel.
-/

def wmod : Nat := 65536

/-- Wrapping u16 addition. -/
def wadd (a b : Nat) : Nat := (a + b) % wmod

/-- Wrapping u16 subtraction. -/
def wsub (a b : Nat) : Nat := (a + (wmod - b % wmod)) % wmod

theorem wadd_eq_of_lt {a b : Nat} (h : a + b < wmod) : wadd a b = a + b := by
  simp [wadd, Nat.mod_eq_of_lt h]

theorem wsub_eq_of_le {a b : Nat} (hba : b ≤ a) (ha : a < wmod) : wsub a b = a - b := by
  unfold wsub wmod at *
  omega

theorem wadd_lt (a b : Nat) : wadd a b < wmod := Nat.mod_lt _ (by decide)

/-- One extended grapheme cluster: its text and its display width. -/
structure Grapheme where
  txt : String
  gw : Nat
deriving DecidableEq, Repr

/-- A string, as the list of its grapheme clusters. -/
abbrev GStr := List Grapheme

/-- UnicodeWidthStr::width — the display width of a string. -/
def strWidth (s : GStr) : Nat := (s.map Grapheme.gw).sum

/-- findsplit (lines 27-32): the boundary of the pos-th grapheme cluster,
or the end of the string when there are fewer clusters. -/
def findsplit (s : GStr) (pos : Nat) : Nat := min pos s.length

/-- TermColor (lines 49-58); toNat is the `as u8` discriminant cast. -/
inductive TermColor where
  | Black | Red | Green | Yellow | Blue | Purple | Cyan | White
deriving DecidableEq, Repr

def TermColor.toNat : TermColor → Nat
  | .Black => 0
  | .Red => 1
  | .Green => 2
  | .Yellow => 3
  | .Blue => 4
  | .Purple => 5
  | .Cyan => 6
  | .White => 7

/-- DomColor (line 61): an optional 256-color palette index. -/
structure DomColor where
  val : Option Nat
deriving DecidableEq, Repr

def DomColor.index (c : DomColor) : Option Nat := c.val

def DomColor.from_dark (c : TermColor) : DomColor := ⟨some c.toNat⟩

def DomColor.from_light (c : TermColor) : DomColor := ⟨some (c.toNat + 8)⟩

/-- from_grey (lines 73-81): `level >> 4` is level / 16 on a u8; the source's
match on 0 / 15 / grey is written as an if-chain. -/
def DomColor.from_grey (level : Nat) : DomColor :=
  let l := level / 16
  ⟨some (if l = 0 then 16 else if l = 15 then 231 else 231 + l)⟩

/-- from_color (lines 82-90): `red >> 4` is red / 16; the quantization
`(red as u32 * 6 / 256) as u8` is exact on Nat for red < 256. -/
def DomColor.from_color (red green blue : Nat) : DomColor :=
  if red / 16 = green / 16 ∧ green / 16 = blue / 16 then
    DomColor.from_grey red
  else
    let r := red * 6 / 256
    let g := green * 6 / 256
    let b := blue * 6 / 256
    ⟨some (16 + r * 36 + g * 6 + b)⟩

inductive TextAlign where
  | Left | Center | Right
deriving DecidableEq, Repr

inductive BorderType where
  | Empty | Dash | Thin | Double | Bold
deriving DecidableEq, Repr

/-- DomStyle (lines 124-140). -/
structure DomStyle where
  bg : DomColor := ⟨none⟩
  fg : DomColor := ⟨none⟩
  bold : Bool := false
  underline : Bool := false
  strikethrough : Bool := false
  italic : Bool := false
  code : Bool := false
  extend : Bool := false
  align : TextAlign := .Left
  border_type : BorderType := .Empty
  top_nb_type : BorderType := .Empty
  bottom_nb_type : BorderType := .Empty
  left_nb_type : BorderType := .Empty
  right_nb_type : BorderType := .Empty
deriving DecidableEq, Repr

structure Rect where
  x : Nat := 0
  y : Nat := 0
  w : Nat := 0
  h : Nat := 0
deriving DecidableEq, Repr

structure Edges where
  top : Nat := 0
  bottom : Nat := 0
  left : Nat := 0
  right : Nat := 0
deriving DecidableEq, Repr

structure BoxSize where
  content : Rect := {}
  border : Edges := {}
deriving DecidableEq, Repr

structure BoxCursor where
  container : BoxSize := {}
  x : Nat := 0
  y : Nat := 0
deriving DecidableEq, Repr

/-- BoxKind (lines 173-187). -/
inductive BoxKind where
  | Text (s : GStr)
  | Break
  | InlineContainer
  | Inline
  | Block
  | Header (level : Nat)
  | List (start : Option Nat)
  | ListBullet
  | Table
  | TableColumn
  | TableItem
  | Image
deriving DecidableEq, Repr

/-- DomBox (lines 242-248). -/
inductive DomBox where
  | mk (kind : BoxKind) (size : BoxSize) (style : DomStyle) (children : List DomBox)

def DomBox.kind : DomBox → BoxKind
  | .mk k _ _ _ => k

def DomBox.size : DomBox → BoxSize
  | .mk _ s _ _ => s

def DomBox.style : DomBox → DomStyle
  | .mk _ _ st _ => st

def DomBox.children : DomBox → List DomBox
  | .mk _ _ _ c => c

def emptyBox : DomBox := .mk .Block {} {} []

/-- LayoutRes (lines 235-240). -/
inductive LayoutRes (α : Type) where
  | Normal
  | CutHere (next : α)
  | Reject

/-- Outcome of running embedded code: a value, a panic, or out of fuel. -/
inductive LOut (α : Type) where
  | ok (a : α)
  | fatal (msg : String)
  | nofuel

/-- get_inline_container (lines 267-286) fused with the push that every
caller performs on it: resolves the inline container (self when self is
Inline/InlineContainer, else the last child when it is an
InlineContainer, else a freshly pushed InlineContainer with self's
style), and appends a new childless box of kind k, styled like that
container, to it. -/
def DomBox.addInlineKind (b : DomBox) (k : BoxKind) : DomBox :=
  if b.kind = .Inline ∨ b.kind = .InlineContainer then
    .mk b.kind b.size b.style (b.children ++ [.mk k {} b.style []])
  else
    match b.children.getLast? with
    | some lc =>
      if lc.kind = .InlineContainer then
        .mk b.kind b.size b.style
          (b.children.dropLast ++
            [.mk lc.kind lc.size lc.style (lc.children ++ [.mk k {} lc.style []])])
      else
        .mk b.kind b.size b.style
          (b.children ++ [.mk .InlineContainer {} b.style [.mk k {} b.style []]])
    | none =>
        .mk b.kind b.size b.style
          (b.children ++ [.mk .InlineContainer {} b.style [.mk k {} b.style []]])

/-- add_text (lines 287-298). -/
def DomBox.add_text (b : DomBox) (t : GStr) : DomBox := b.addInlineKind (.Text t)

/-- add_inline (lines 299-310). -/
def DomBox.add_inline (b : DomBox) : DomBox := b.addInlineKind .Inline

/-- i.to_string() for an ordered bullet label: one width-1 ASCII digit
cluster per decimal digit, no padding. -/
def numLabel (i : Nat) : GStr :=
  (Nat.toDigits 10 i).map (fun c => ⟨String.singleton c, 1⟩)

/-- The fixed unordered bullet glyph "*". -/
def starGlyph : GStr := [⟨"*", 1⟩]

/-- The End(Tag::List(Some(start))) handler (lines 962-975): walk the
direct children with a counter starting at the list's start value and
label each ListBullet with the counter's decimal string. -/
def endListLabel : Nat → List DomBox → List DomBox
  | _, [] => []
  | i, c :: cs =>
    if c.kind = .ListBullet then c.add_text (numLabel i) :: endListLabel (i + 1) cs
    else c :: endListLabel i cs

/-- The End(Tag::List(None)) handler (lines 952-961): label each direct
ListBullet child with the fixed glyph "*". -/
def endListStar : List DomBox → List DomBox
  | [] => []
  | c :: cs =>
    if c.kind = .ListBullet then c.add_text starGlyph :: endListStar cs
    else c :: endListStar cs

/-- Number of ListBullet children strictly before position j. -/
def bulletsBefore : List DomBox → Nat → Nat
  | _, 0 => 0
  | [], _ + 1 => 0
  | c :: cs, j + 1 => (if c.kind = .ListBullet then 1 else 0) + bulletsBefore cs j

/-- The type layout_generic has in this embedding: box and cursor in, the
updated box, updated cursor and the layout result out. -/
abbrev LG := DomBox → BoxCursor → LOut (DomBox × BoxCursor × LayoutRes DomBox)

/-- The sub-cursor both children-loops start from: the top-left corner of
the content rectangle, inside the node's own size. -/
def subCursorOf (sz : BoxSize) : BoxCursor := ⟨sz, sz.content.x, sz.content.y⟩

/-- The geometry layout_inline writes before dispatching on the kind
(lines 558-564): height 1, origin cursor + own border, width =
container width - (cursor.x - container.x) - (left + right border),
all in wrapping u16 arithmetic and in the source's evaluation order. -/
def inlineEntrySize (b : DomBox) (cur : BoxCursor) : BoxSize :=
  { content :=
      { x := wadd cur.x b.size.border.left
      , y := wadd cur.y b.size.border.top
      , w := wsub (wsub cur.container.content.w (wsub cur.x cur.container.content.x))
                  (wadd b.size.border.left b.size.border.right)
      , h := 1 }
  , border := b.size.border }

/-- The geometry layout_inline_container writes before its children loop
(lines 543-551): width = container width - own left/right border, floored
to 1 when the container is not strictly wider than the borders. -/
def icEntrySize (b : DomBox) (cur : BoxCursor) : BoxSize :=
  { content :=
      { x := wadd cur.x b.size.border.left
      , y := wadd cur.y b.size.border.top
      , w := if cur.container.content.w > wadd b.size.border.left b.size.border.right
             then wsub (wsub cur.container.content.w b.size.border.left) b.size.border.right
             else 1
      , h := 1 }
  , border := b.size.border }

/-- The geometry layout_list writes before its children loop
(lines 495-503): same width rule as the inline container, height 0. -/
def listEntrySize (b : DomBox) (cur : BoxCursor) : BoxSize :=
  { content :=
      { x := wadd cur.x b.size.border.left
      , y := wadd cur.y b.size.border.top
      , w := if cur.container.content.w > wadd b.size.border.left b.size.border.right
             then wsub (wsub cur.container.content.w b.size.border.left) b.size.border.right
             else 1
      , h := 0 }
  , border := b.size.border }

/-- The geometry layout_block writes before its children loop
(lines 441-451): width from `container.w - cursor.x + container.x`
compared against and then reduced by the node's left+right border,
floored to 1, in wrapping u16 arithmetic and the source's evaluation
order; height 0. -/
def blockEntrySize (b : DomBox) (cur : BoxCursor) : BoxSize :=
  { content :=
      { x := wadd cur.x b.size.border.left
      , y := wadd cur.y b.size.border.top
      , w := if wadd (wsub cur.container.content.w cur.x) cur.container.content.x >
                wadd b.size.border.left b.size.border.right
             then wsub (wsub (wadd (wsub cur.container.content.w cur.x) cur.container.content.x)
                             b.size.border.left)
                       b.size.border.right
             else 1
      , h := 0 }
  , border := b.size.border }

/-- The while loop of inline_children_loop (lines 379-422). done is the
already-processed prefix (children[0..i]), rest the yet-unprocessed
suffix; k, sz, st are the container's kind, size and style, captured for
the continuation boxes the loop builds. A Break child is removed and
everything after it is cut into a continuation; a child splitting cuts
from after it; a child rejecting at position 0 either propagates (dorej)
or panics, and at a later position cuts from that child onward. -/
def loopInline (lg : LG) (k : BoxKind) (sz : BoxSize) (st : DomStyle) (dorej : Bool) :
    List DomBox → List DomBox → BoxCursor → LayoutRes DomBox →
    LOut (List DomBox × BoxCursor × LayoutRes DomBox)
  | done, [], sub, res => .ok (done, sub, res)
  | done, c :: cs, sub, res =>
    if c.kind = .Break then
      .ok (done, sub, .CutHere (.mk k sz st cs))
    else
      match lg c sub with
      | .nofuel => .nofuel
      | .fatal m => .fatal m
      | .ok (c', sub', .Normal) => loopInline lg k sz st dorej (done ++ [c']) cs sub' res
      | .ok (c', sub', .CutHere next) =>
          .ok (done ++ [c'], sub', .CutHere (.mk k sz st (next :: cs)))
      | .ok (c', sub', .Reject) =>
          if done.isEmpty then
            if dorej then .ok (done ++ c' :: cs, sub', .Reject)
            else .fatal "cant reject from first"
          else .ok (done, sub', .CutHere (.mk k sz st (c' :: cs)))

/-- inline_children_loop (lines 369-425): run the loop from the content
origin, then set the content width to the distance the sub-cursor
travelled. -/
def inlineChildrenLoop (lg : LG) (b : DomBox) (res : LayoutRes DomBox) (dorej : Bool) :
    LOut (DomBox × LayoutRes DomBox) :=
  match loopInline lg b.kind b.size b.style dorej [] b.children (subCursorOf b.size) res with
  | .ok (cs, sub', res') =>
      .ok (.mk b.kind
             { b.size with content := { b.size.content with w := wsub sub'.x b.size.content.x } }
             b.style cs,
           res')
  | .fatal m => .fatal m
  | .nofuel => .nofuel

/-- layout_inline (lines 558-592). A Text node measures its display
width: available width 0 rejects; a wider text splits at the
findsplit boundary, truncating itself to the head and reporting the tail
as a continuation (content.w stays the available width); otherwise the
content width becomes the measured width. An Inline node runs the
children loop with rejection allowed. The cursor advances horizontally
by the final content width. -/
def layoutInline (lg : LG) (b : DomBox) (cur : BoxCursor) :
    LOut (DomBox × BoxCursor × LayoutRes DomBox) :=
  let sz := inlineEntrySize b cur
  match b.kind with
  | .Text t =>
      let width := strWidth t % wmod
      if sz.content.w = 0 then
        .ok (.mk b.kind sz b.style b.children,
             { cur with x := wadd cur.x sz.content.w }, .Reject)
      else if width > sz.content.w then
        let pos := findsplit t sz.content.w
        .ok (.mk (.Text (t.take pos)) sz b.style b.children,
             { cur with x := wadd cur.x sz.content.w },
             .CutHere (.mk (.Text (t.drop pos)) sz b.style []))
      else
        .ok (.mk b.kind { sz with content := { sz.content with w := width } } b.style b.children,
             { cur with x := wadd cur.x width }, .Normal)
  | .Inline =>
      match inlineChildrenLoop lg (.mk b.kind sz b.style b.children) .Normal true with
      | .ok (b', res) => .ok (b', { cur with x := wadd cur.x b'.size.content.w }, res)
      | .fatal m => .fatal m
      | .nofuel => .nofuel
  | _ => .fatal "cant layout_inline"

/-- layout_inline_container (lines 541-555): fixed content height 1, runs
the children loop with rejection forbidden, advances the cursor
vertically by its outer height. -/
def layoutIC (lg : LG) (b : DomBox) (cur : BoxCursor) :
    LOut (DomBox × BoxCursor × LayoutRes DomBox) :=
  let sz := icEntrySize b cur
  match inlineChildrenLoop lg (.mk b.kind sz b.style b.children) .Normal false with
  | .ok (b', res) =>
      let y' := wadd cur.y (wadd (wadd b'.size.content.h b.size.border.top) b.size.border.bottom)
      .ok (b', { cur with y := y' }, res)
  | .fatal m => .fatal m
  | .nofuel => .nofuel

/-- The while loop of layout_block (lines 458-480): Break children are
removed; each other child is laid out against the shared sub-cursor, a
reported continuation is inserted right after it, a rejection is fatal;
the loop accumulates the content height (sum of children's outer
heights) and the maximal child outer width, in wrapping u16 arithmetic. -/
def loopBlock (lg : LG) : Nat → List DomBox → List DomBox → BoxCursor → Nat → Nat →
    LOut (List DomBox × BoxCursor × Nat × Nat)
  | 0, _, _, _, _, _ => .nofuel
  | _ + 1, done, [], sub, h, maxw => .ok (done, sub, h, maxw)
  | fuel + 1, done, c :: cs, sub, h, maxw =>
    if c.kind = .Break then loopBlock lg fuel done cs sub h maxw
    else
      match lg c sub with
      | .nofuel => .nofuel
      | .fatal m => .fatal m
      | .ok (c', sub', res) =>
        match res with
        | .Reject => .fatal "cant reject"
        | .Normal =>
            loopBlock lg fuel (done ++ [c']) cs sub'
              (wadd h (wadd (wadd c'.size.content.h c'.size.border.top) c'.size.border.bottom))
              (let ow := wadd (wadd c'.size.content.w c'.size.border.left) c'.size.border.right
               if ow > maxw then ow else maxw)
        | .CutHere next =>
            loopBlock lg fuel (done ++ [c']) (next :: cs) sub'
              (wadd h (wadd (wadd c'.size.content.h c'.size.border.top) c'.size.border.bottom))
              (let ow := wadd (wadd c'.size.content.w c'.size.border.left) c'.size.border.right
               if ow > maxw then ow else maxw)

/-- layout_block (lines 439-492): entry geometry, children loop, then the
content width becomes the maximal child outer width unless the extend
style flag keeps the computed width; a ListBullet advances the cursor
horizontally by its outer width, every other block-like node resets x
and advances y by its outer height. -/
def layoutBlock (lg : LG) (fuel : Nat) (b : DomBox) (cur : BoxCursor) :
    LOut (DomBox × BoxCursor × LayoutRes DomBox) :=
  let sz := blockEntrySize b cur
  match loopBlock lg fuel [] b.children (subCursorOf sz) 0 0 with
  | .nofuel => .nofuel
  | .fatal m => .fatal m
  | .ok (cs, _, h, maxw) =>
      let wfin := if b.style.extend then sz.content.w else maxw
      let sz2 := { sz with content := { sz.content with w := wfin, h := h } }
      let xadv := wadd cur.x (wadd (wadd wfin b.size.border.left) b.size.border.right)
      let yadv := wadd cur.y (wadd (wadd h b.size.border.top) b.size.border.bottom)
      let cur' :=
        if b.kind = .ListBullet then { cur with x := xadv }
        else { cur with x := cur.container.content.x, y := yadv }
      .ok (.mk b.kind sz2 b.style cs, cur', .Normal)

/-- The while loop of layout_list (lines 509-536): only ListBullet and
Block children are legal; both are laid out against the shared
sub-cursor with continuations spliced in, but only Block children
contribute to the accumulated content height. -/
def loopList (lg : LG) : Nat → List DomBox → List DomBox → BoxCursor → Nat →
    LOut (List DomBox × BoxCursor × Nat)
  | 0, _, _, _, _ => .nofuel
  | _ + 1, done, [], sub, h => .ok (done, sub, h)
  | fuel + 1, done, c :: cs, sub, h =>
    if c.kind = .ListBullet then
      match lg c sub with
      | .nofuel => .nofuel
      | .fatal m => .fatal m
      | .ok (c', sub', .Normal) => loopList lg fuel (done ++ [c']) cs sub' h
      | .ok (c', sub', .CutHere next) => loopList lg fuel (done ++ [c']) (next :: cs) sub' h
      | .ok (_, _, .Reject) => .fatal "cant reject"
    else if c.kind = .Block then
      match lg c sub with
      | .nofuel => .nofuel
      | .fatal m => .fatal m
      | .ok (c', sub', .Normal) =>
          loopList lg fuel (done ++ [c']) cs sub'
            (wadd h (wadd (wadd c'.size.content.h c'.size.border.top) c'.size.border.bottom))
      | .ok (c', sub', .CutHere next) =>
          loopList lg fuel (done ++ [c']) (next :: cs) sub'
            (wadd h (wadd (wadd c'.size.content.h c'.size.border.top) c'.size.border.bottom))
      | .ok (_, _, .Reject) => .fatal "cant reject"
    else .fatal "cant layout in a List"

/-- layout_list (lines 493-539): entry geometry, children loop, then the
cursor advances vertically by the accumulated outer height. -/
def layoutList (lg : LG) (fuel : Nat) (b : DomBox) (cur : BoxCursor) :
    LOut (DomBox × BoxCursor × LayoutRes DomBox) :=
  let sz := listEntrySize b cur
  match loopList lg fuel [] b.children (subCursorOf sz) 0 with
  | .nofuel => .nofuel
  | .fatal m => .fatal m
  | .ok (cs, _, h) =>
      let sz2 := { sz with content := { sz.content with h := h } }
      let y' := wadd cur.y (wadd (wadd h b.size.border.top) b.size.border.bottom)
      .ok (.mk b.kind sz2 b.style cs, { cur with y := y' }, .Normal)

/-- layout_generic (lines 426-438): dispatch by node kind; laying out a
Break or an unimplemented kind (Table family, Image) is fatal. -/
def layoutGeneric : Nat → DomBox → BoxCursor → LOut (DomBox × BoxCursor × LayoutRes DomBox)
  | 0, _, _ => .nofuel
  | fuel + 1, b, cur =>
    match b.kind with
    | .Block | .ListBullet | .Header _ =>
        layoutBlock (fun b' c' => layoutGeneric fuel b' c') fuel b cur
    | .InlineContainer => layoutIC (fun b' c' => layoutGeneric fuel b' c') b cur
    | .List _ => layoutList (fun b' c' => layoutGeneric fuel b' c') fuel b cur
    | .Text _ | .Inline => layoutInline (fun b' c' => layoutGeneric fuel b' c') b cur
    | .Break => .fatal "shouldnt layout a break"
    | _ => .fatal "unimplemented layout"

/-- layout (lines 361-368): the root is laid out against a cursor at the
origin whose container is the root's own size. -/
def DomBox.layout (b : DomBox) (fuel : Nat) : LOut (DomBox × BoxCursor × LayoutRes DomBox) :=
  layoutGeneric fuel b ⟨b.size, 0, 0⟩

/-- for _ in 0..n { s.push(c) } -/
def pushN : List Char → Char → Nat → List Char
  | s, _, 0 => s
  | s, c, n + 1 => pushN (s ++ [c]) c n

/-- render_borderline (lines 646-684): the characters pushed for a border
row. border.left corner glyphs (the source's match has only a wildcard
arm, so the corner does not depend on the border type), content.w
horizontal glyphs selected by the border type, border.right corner
glyphs. is_top when the row lies above the content band. -/
def render_borderline (b : DomBox) (line : Nat) : List Char :=
  let is_top := line < b.size.content.y
  let s : List Char := []
  let s := pushN s (if is_top then '┌' else '└') b.size.border.left
  let s := pushN s
    (match b.style.border_type with
     | .Empty => ' '
     | .Dash => '╌'
     | .Thin => '─'
     | .Double => '═'
     | .Bold => '━') b.size.content.w
  let s := pushN s (if is_top then '┐' else '┘') b.size.border.right
  s

/-- render_borderside (lines 685-713): the characters pushed for one
vertical border side within the content band, selected by the border
type. -/
def render_borderside (b : DomBox) (is_left : Bool) : List Char :=
  let width := if is_left then b.size.border.left else b.size.border.right
  pushN []
    (match b.style.border_type with
     | .Empty => ' '
     | .Dash => '╎'
     | .Thin => '│'
     | .Double => '║'
     | .Bold => '┃') width

/-- Outer height of a node: content height plus its own top and bottom
border widths. -/
def outerHeight (b : DomBox) : Nat :=
  b.size.content.h + b.size.border.top + b.size.border.bottom

/-- Sum of the outer heights of a list of nodes. -/
def heightSum (cs : List DomBox) : Nat := (cs.map outerHeight).sum

def isBlock (b : DomBox) : Bool :=
  match b.kind with
  | .Block => true
  | _ => false

/-- Sum of the outer heights of the Block-kind nodes of a list. -/
def heightSumBlocks (cs : List DomBox) : Nat :=
  ((cs.filter isBlock).map outerHeight).sum

/-- C7: for r, g, b whose top 4 bits all agree, from_color equals
from_grey of r; from_grey 0 is palette index 16 and from_grey 255 is
231; otherwise from_color quantizes each channel by channel*6/256 into
16 + 36r + 6g + b; and for every 8-bit RGB triple the resulting index
lies within [16, 255]. -/
theorem c7_color_quantization (r g b : Nat) (hr : r < 256) (hg : g < 256) (hb : b < 256) :
    (r / 16 = g / 16 → g / 16 = b / 16 → DomColor.from_color r g b = DomColor.from_grey r) ∧
    DomColor.from_grey 0 = ⟨some 16⟩ ∧
    DomColor.from_grey 255 = ⟨some 231⟩ ∧
    (¬(r / 16 = g / 16 ∧ g / 16 = b / 16) →
      DomColor.from_color r g b =
        ⟨some (16 + (r * 6 / 256) * 36 + (g * 6 / 256) * 6 + (b * 6 / 256))⟩) ∧
    (∃ i, (DomColor.from_color r g b).index = some i ∧ 16 ≤ i ∧ i ≤ 255) := by
  refine ⟨?_, rfl, rfl, ?_, ?_⟩
  · intro h1 h2
    unfold DomColor.from_color
    rw [if_pos ⟨h1, h2⟩]
  · intro hne
    unfold DomColor.from_color
    rw [if_neg hne]
  · unfold DomColor.from_color
    by_cases hc : r / 16 = g / 16 ∧ g / 16 = b / 16
    · rw [if_pos hc]
      unfold DomColor.from_grey DomColor.index
      refine ⟨_, rfl, ?_⟩
      have hl : r / 16 ≤ 15 := by omega
      split_ifs <;> omega
    · rw [if_neg hc]
      unfold DomColor.index
      refine ⟨_, rfl, ?_⟩
      have h6r : r * 6 / 256 ≤ 5 := by omega
      have h6g : g * 6 / 256 ≤ 5 := by omega
      have h6b : b * 6 / 256 ≤ 5 := by omega
      omega

/-- Witness for c7_color_quantization at a concrete RGB triple. -/
theorem c7_color_quantization_witness :
    (18 : Nat) < 256 ∧ (52 : Nat) < 256 ∧ (86 : Nat) < 256 ∧
    ((18 / 16 = 52 / 16 → 52 / 16 = 86 / 16 →
        DomColor.from_color 18 52 86 = DomColor.from_grey 18) ∧
     DomColor.from_grey 0 = ⟨some 16⟩ ∧
     DomColor.from_grey 255 = ⟨some 231⟩ ∧
     (¬(18 / 16 = 52 / 16 ∧ 52 / 16 = 86 / 16) →
       DomColor.from_color 18 52 86 =
         ⟨some (16 + (18 * 6 / 256) * 36 + (52 * 6 / 256) * 6 + (86 * 6 / 256))⟩) ∧
     (∃ i, (DomColor.from_color 18 52 86).index = some i ∧ 16 ≤ i ∧ i ≤ 255)) :=
  ⟨by decide, by decide, by decide,
   c7_color_quantization 18 52 86 (by decide) (by decide) (by decide)⟩

theorem pushN_eq (c : Char) : ∀ (n : Nat) (s : List Char),
    pushN s c n = s ++ List.replicate n c := by
  intro n
  induction n with
  | zero => intro s; simp [pushN]
  | succ n ih =>
      intro s
      simp [pushN, ih, List.replicate_succ]

/-- C8: for every node, a row in its border band consists of border.left
corner glyphs, then content.w horizontal glyphs chosen by the node's
border type (Empty a space, Dash ╌, Thin ─, Double ═, Bold ━, with
corners ┌ ┐ on a top row and └ ┘ on a bottom row), and a vertical border
side consists of vertical glyphs chosen by the border type (Empty a
space, Dash ╎, Thin │, Double ║, Bold ┃). -/
theorem c8_border_glyphs :
    ∀ (b : DomBox) (line : Nat) (is_left : Bool),
      render_borderline b line =
        List.replicate b.size.border.left (if line < b.size.content.y then '┌' else '└') ++
        List.replicate b.size.content.w
          (match b.style.border_type with
           | .Empty => ' '
           | .Dash => '╌'
           | .Thin => '─'
           | .Double => '═'
           | .Bold => '━') ++
        List.replicate b.size.border.right (if line < b.size.content.y then '┐' else '┘') ∧
      render_borderside b is_left =
        List.replicate (if is_left then b.size.border.left else b.size.border.right)
          (match b.style.border_type with
           | .Empty => ' '
           | .Dash => '╎'
           | .Thin => '│'
           | .Double => '║'
           | .Bold => '┃') := by
  intro b line is_left
  constructor
  · simp only [render_borderline, pushN_eq]
    simp [List.append_assoc]
  · simp only [render_borderside, pushN_eq]
    simp

theorem endListLabel_length (s : Nat) (cs : List DomBox) :
    (endListLabel s cs).length = cs.length := by
  induction cs generalizing s with
  | nil => rfl
  | cons c cs ih => by_cases hb : c.kind = .ListBullet <;> simp [endListLabel, hb, ih]

theorem endListStar_length (cs : List DomBox) :
    (endListStar cs).length = cs.length := by
  induction cs with
  | nil => rfl
  | cons c cs ih => by_cases hb : c.kind = .ListBullet <;> simp [endListStar, hb, ih]

theorem widthOnes (l : List Char) :
    strWidth (l.map (fun c => ⟨String.singleton c, 1⟩)) = l.length := by
  induction l with
  | nil => rfl
  | cons c l ih =>
      simp only [List.map_cons, strWidth, List.sum_cons, List.length_cons] at ih ⊢
      omega

theorem endList_getD (s : Nat) (cs : List DomBox) (j : Nat) (hj : j < cs.length) :
    ((cs.getD j emptyBox).kind = .ListBullet →
      (endListLabel s cs).getD j emptyBox =
        (cs.getD j emptyBox).add_text (numLabel (s + bulletsBefore cs j)) ∧
      (endListStar cs).getD j emptyBox = (cs.getD j emptyBox).add_text starGlyph) ∧
    ((cs.getD j emptyBox).kind ≠ .ListBullet →
      (endListLabel s cs).getD j emptyBox = cs.getD j emptyBox ∧
      (endListStar cs).getD j emptyBox = cs.getD j emptyBox) := by
  induction cs generalizing s j with
  | nil => simp at hj
  | cons c cs ih =>
    cases j with
    | zero =>
      by_cases hb : c.kind = .ListBullet <;>
        simp [endListLabel, endListStar, hb, bulletsBefore]
    | succ j =>
      have hj' : j < cs.length := by simpa using hj
      by_cases hb : c.kind = .ListBullet
      · have H := ih (s + 1) j hj'
        simp only [endListLabel, endListStar, if_pos hb, List.getD_cons_succ,
          bulletsBefore, hb, if_true]
        rw [show s + (1 + bulletsBefore cs j) = s + 1 + bulletsBefore cs j by omega]
        exact H
      · have H := ih s j hj'
        simp only [endListLabel, endListStar, if_neg hb, List.getD_cons_succ,
          bulletsBefore, hb, if_false]
        rw [show s + (0 + bulletsBefore cs j) = s + bulletsBefore cs j by omega]
        exact H

/-- C9: the End handler of an ordered list declared with start value s
labels the j-th direct child, when it is a ListBullet preceded by
bulletsBefore cs j bullets, with the decimal string of
s + bulletsBefore cs j — i.e. the bullets receive s, s+1, s+2, … in
document order — and leaves every other child untouched; the End handler
of an unordered list gives every direct ListBullet child the same fixed
glyph "*"; and a label's display width is exactly its digit count
(no width adjustment for multi-digit numbers). -/
theorem c9_list_labels (s : Nat) (cs : List DomBox) :
    (endListLabel s cs).length = cs.length ∧
    (endListStar cs).length = cs.length ∧
    (∀ j, j < cs.length →
      ((cs.getD j emptyBox).kind = .ListBullet →
        (endListLabel s cs).getD j emptyBox =
          (cs.getD j emptyBox).add_text (numLabel (s + bulletsBefore cs j)) ∧
        (endListStar cs).getD j emptyBox = (cs.getD j emptyBox).add_text starGlyph) ∧
      ((cs.getD j emptyBox).kind ≠ .ListBullet →
        (endListLabel s cs).getD j emptyBox = cs.getD j emptyBox ∧
        (endListStar cs).getD j emptyBox = cs.getD j emptyBox)) ∧
    (∀ n, strWidth (numLabel n) = (Nat.toDigits 10 n).length) :=
  ⟨endListLabel_length s cs, endListStar_length cs,
   fun j hj => endList_getD s cs j hj,
   fun n => widthOnes (Nat.toDigits 10 n)⟩

def c9wBullet : DomBox := .mk .ListBullet {} {} []

def c9wBlock : DomBox := .mk .Block {} {} []

/-- Witness for c9_list_labels: a three-child list (bullet, block,
bullet) labeled from 7 yields labels "7" and "8" on the bullets and
leaves the block alone. -/
theorem c9_list_labels_witness :
    (endListLabel 7 [c9wBullet, c9wBlock, c9wBullet]).getD 0 emptyBox =
      c9wBullet.add_text (numLabel 7) ∧
    (endListLabel 7 [c9wBullet, c9wBlock, c9wBullet]).getD 2 emptyBox =
      c9wBullet.add_text (numLabel 8) ∧
    (endListStar [c9wBullet, c9wBlock, c9wBullet]).getD 1 emptyBox = c9wBlock := by
  have H := c9_list_labels 7 [c9wBullet, c9wBlock, c9wBullet]
  refine ⟨?_, ?_, ?_⟩
  · have h0 := (H.2.2.1 0 (by decide)).1 (by rfl)
    simpa [bulletsBefore] using h0.1
  · have h2 := (H.2.2.1 2 (by decide)).1 (by rfl)
    simpa [bulletsBefore, c9wBullet, c9wBlock] using h2.1
  · have h1 := (H.2.2.1 1 (by decide)).2 (by simp [c9wBlock, DomBox.kind])
    simpa using h1.2

/-- C10: a Text or Inline node pushed by the builder lands inside an
inline container, never directly under a block-like node: when the
receiving node is itself Inline or InlineContainer the new node becomes
its direct child; when it is block-like and its last child is already an
InlineContainer, the new node is appended inside that same last child
(no new container is opened); otherwise a fresh InlineContainer with the
receiver's style is opened and the new node is its only child. -/
theorem c10_inline_placement (b : DomBox) (t : GStr) :
    ((b.kind = .Inline ∨ b.kind = .InlineContainer) →
      b.add_text t = .mk b.kind b.size b.style (b.children ++ [.mk (.Text t) {} b.style []]) ∧
      b.add_inline = .mk b.kind b.size b.style (b.children ++ [.mk .Inline {} b.style []])) ∧
    (¬(b.kind = .Inline ∨ b.kind = .InlineContainer) →
      (∀ lc, b.children.getLast? = some lc → lc.kind = .InlineContainer →
        b.add_text t = .mk b.kind b.size b.style
          (b.children.dropLast ++
            [.mk lc.kind lc.size lc.style (lc.children ++ [.mk (.Text t) {} lc.style []])]) ∧
        b.add_inline = .mk b.kind b.size b.style
          (b.children.dropLast ++
            [.mk lc.kind lc.size lc.style (lc.children ++ [.mk .Inline {} lc.style []])])) ∧
      (∀ lc, b.children.getLast? = some lc → lc.kind ≠ .InlineContainer →
        b.add_text t = .mk b.kind b.size b.style
          (b.children ++ [.mk .InlineContainer {} b.style [.mk (.Text t) {} b.style []]]) ∧
        b.add_inline = .mk b.kind b.size b.style
          (b.children ++ [.mk .InlineContainer {} b.style [.mk .Inline {} b.style []]])) ∧
      (b.children.getLast? = none →
        b.add_text t = .mk b.kind b.size b.style
          (b.children ++ [.mk .InlineContainer {} b.style [.mk (.Text t) {} b.style []]]) ∧
        b.add_inline = .mk b.kind b.size b.style
          (b.children ++ [.mk .InlineContainer {} b.style [.mk .Inline {} b.style []]]))) := by
  constructor
  · intro hi
    constructor <;> simp [DomBox.add_text, DomBox.add_inline, DomBox.addInlineKind, hi]
  · intro hni
    refine ⟨?_, ?_, ?_⟩
    · intro lc hlast hic
      constructor <;>
        simp [DomBox.add_text, DomBox.add_inline, DomBox.addInlineKind, hni, hlast, hic]
    · intro lc hlast hnic
      constructor <;>
        simp [DomBox.add_text, DomBox.add_inline, DomBox.addInlineKind, hni, hlast, hnic]
    · intro hnone
      constructor <;>
        simp [DomBox.add_text, DomBox.add_inline, DomBox.addInlineKind, hni, hnone]

def c10wText : DomBox := .mk (.Text [⟨"a", 1⟩]) {} {} []

def c10wIC : DomBox := .mk .InlineContainer {} {} [c10wText]

def c10wBlock : DomBox := .mk .Block {} {} [c10wIC]

/-- Witness for c10_inline_placement: a Block whose last child is an
InlineContainer receives new text inside that same container. -/
theorem c10_inline_placement_witness :
    c10wBlock.add_text [⟨"b", 1⟩] =
      .mk .Block {} {}
        [.mk .InlineContainer {} {} [c10wText, .mk (.Text [⟨"b", 1⟩]) {} {} []]] := by
  have H := (c10_inline_placement c10wBlock [⟨"b", 1⟩]).2 (by simp [c10wBlock, DomBox.kind])
  have h2 := H.1 c10wIC (by simp [c10wBlock, DomBox.children]) (by simp [c10wIC, DomBox.kind])
  simpa [c10wBlock, c10wIC, DomBox.kind, DomBox.size, DomBox.style, DomBox.children] using h2.1

@[simp] theorem DomBox.kind_mk (k : BoxKind) (sz : BoxSize) (st : DomStyle)
    (cs : List DomBox) : (DomBox.mk k sz st cs).kind = k := rfl

@[simp] theorem DomBox.size_mk (k : BoxKind) (sz : BoxSize) (st : DomStyle)
    (cs : List DomBox) : (DomBox.mk k sz st cs).size = sz := rfl

@[simp] theorem DomBox.style_mk (k : BoxKind) (sz : BoxSize) (st : DomStyle)
    (cs : List DomBox) : (DomBox.mk k sz st cs).style = st := rfl

@[simp] theorem DomBox.children_mk (k : BoxKind) (sz : BoxSize) (st : DomStyle)
    (cs : List DomBox) : (DomBox.mk k sz st cs).children = cs := rfl

/-- C5: when the child at the current position of the inline-children
loop is a Break marker, the loop removes that child and returns CutHere
with a continuation node that has the container's kind, geometry and
style and carries exactly the remaining children from that position on. -/
theorem c5_break_cut (lg : LG) (k : BoxKind) (sz : BoxSize) (st : DomStyle) (dorej : Bool)
    (done : List DomBox) (b : DomBox) (cs : List DomBox) (sub : BoxCursor)
    (res : LayoutRes DomBox) (hb : b.kind = .Break) :
    loopInline lg k sz st dorej done (b :: cs) sub res =
      .ok (done, sub, .CutHere (.mk k sz st cs)) := by
  simp [loopInline, hb]

def c5wBreak : DomBox := .mk .Break {} {} []

def c5wText : DomBox := .mk (.Text [⟨"a", 1⟩]) {} {} []

/-- Witness for c5_break_cut at a concrete loop state. -/
theorem c5_break_cut_witness :
    loopInline (layoutGeneric 1) .InlineContainer {} {} false
        [c5wText] (c5wBreak :: [c5wText]) {} .Normal =
      .ok ([c5wText], {}, .CutHere (.mk .InlineContainer {} {} [c5wText])) :=
  c5_break_cut (layoutGeneric 1) .InlineContainer {} {} false
    [c5wText] c5wBreak [c5wText] {} .Normal rfl

/-- C4: in the inline-children algorithm, a child whose layout returns
Reject is handled by position and container: at the first position an
Inline span propagates the rejection upward, while an InlineContainer
(a line, which must never fail on its first element) treats it as a
fatal error; at any later position the container returns CutHere with
that child and all later children moved into a continuation of the
container's kind, geometry and style. -/
theorem c4_reject_dispatch :
    (∀ (lg : LG) (b : DomBox) (cur : BoxCursor) (c : DomBox) (cs : List DomBox)
       (c' : DomBox) (sub' : BoxCursor),
       b.kind = .Inline → b.children = c :: cs → c.kind ≠ .Break →
       lg c (subCursorOf (inlineEntrySize b cur)) = .ok (c', sub', .Reject) →
       ∃ b' cur', layoutInline lg b cur = .ok (b', cur', .Reject)) ∧
    (∀ (lg : LG) (b : DomBox) (cur : BoxCursor) (c : DomBox) (cs : List DomBox)
       (c' : DomBox) (sub' : BoxCursor),
       b.children = c :: cs → c.kind ≠ .Break →
       lg c (subCursorOf (icEntrySize b cur)) = .ok (c', sub', .Reject) →
       ∃ m, layoutIC lg b cur = .fatal m) ∧
    (∀ (lg : LG) (k : BoxKind) (sz : BoxSize) (st : DomStyle) (dorej : Bool)
       (done : List DomBox) (c : DomBox) (cs : List DomBox) (sub : BoxCursor)
       (res : LayoutRes DomBox) (c' : DomBox) (sub' : BoxCursor),
       done ≠ [] → c.kind ≠ .Break → lg c sub = .ok (c', sub', .Reject) →
       loopInline lg k sz st dorej done (c :: cs) sub res =
         .ok (done, sub', .CutHere (.mk k sz st (c' :: cs)))) := by
  refine ⟨?_, ?_, ?_⟩
  · intro lg b cur c cs c' sub' hk hch hcb hlg
    simp only [layoutInline, hk, inlineChildrenLoop, DomBox.kind_mk, DomBox.size_mk,
      DomBox.style_mk, DomBox.children_mk, hch, loopInline, if_neg hcb, hlg,
      List.isEmpty_nil, if_true]
    exact ⟨_, _, rfl⟩
  · intro lg b cur c cs c' sub' hch hcb hlg
    simp only [layoutIC, inlineChildrenLoop, DomBox.kind_mk, DomBox.size_mk,
      DomBox.style_mk, DomBox.children_mk, hch, loopInline, if_neg hcb, hlg,
      List.isEmpty_nil, if_true]
    exact ⟨_, rfl⟩
  · intro lg k sz st dorej done c cs sub res c' sub' hdone hcb hlg
    have hne : done.isEmpty = false := by
      cases done with
      | nil => exact absurd rfl hdone
      | cons a l => rfl
    simp only [loopInline, if_neg hcb, hlg, hne]
    rfl

def c4wText : DomBox := .mk (.Text [⟨"a", 1⟩]) {} {} []

def c4wInline : DomBox := .mk .Inline {} {} [c4wText]

def c4wCur0 : BoxCursor := ⟨⟨⟨0, 0, 0, 1⟩, {}⟩, 0, 0⟩

def c4wTextR : DomBox := .mk (.Text [⟨"a", 1⟩]) { border := { right := 1 } } {} []

def c4wIC : DomBox := .mk .InlineContainer {} {} [c4wTextR]

def c4wCur1 : BoxCursor := ⟨⟨⟨0, 0, 1, 1⟩, {}⟩, 0, 0⟩

def c4wSub : BoxCursor := ⟨⟨⟨0, 0, 0, 1⟩, {}⟩, 0, 0⟩

/-- Witness for c4_reject_dispatch: a first-child rejection inside an
Inline propagates, inside an InlineContainer is fatal, and a
second-position rejection cuts. -/
theorem c4_reject_dispatch_witness :
    (∃ b' cur', layoutInline (layoutGeneric 1) c4wInline c4wCur0 = .ok (b', cur', .Reject)) ∧
    (∃ m, layoutIC (layoutGeneric 1) c4wIC c4wCur1 = .fatal m) ∧
    (∃ c' sub',
      loopInline (layoutGeneric 1) .Inline {} {} true [c4wText] (c4wText :: []) c4wSub .Normal =
        .ok ([c4wText], sub', .CutHere (.mk .Inline {} {} (c' :: [])))) := by
  refine ⟨?_, ?_, ?_⟩
  · exact c4_reject_dispatch.1 (layoutGeneric 1) c4wInline c4wCur0 c4wText [] _ _
      rfl rfl (by decide) rfl
  · exact c4_reject_dispatch.2.1 (layoutGeneric 1) c4wIC c4wCur1 c4wTextR [] _ _
      rfl (by decide) rfl
  · exact ⟨_, _, c4_reject_dispatch.2.2 (layoutGeneric 1) .Inline {} {} true
      [c4wText] c4wText [] c4wSub .Normal _ _ (List.cons_ne_nil _ _) (by decide) rfl⟩

/-- The available width layout_inline grants a node, in exact (unwrapped)
arithmetic: container width minus the cursor's offset inside the
container minus the node's own left+right border. -/
def textAvail (b : DomBox) (cur : BoxCursor) : Nat :=
  cur.container.content.w - (cur.x - cur.container.content.x) -
    (b.size.border.left + b.size.border.right)

theorem inlineEntry_w_eq (b : DomBox) (cur : BoxCursor)
    (hcx : cur.container.content.x ≤ cur.x)
    (hin : cur.x - cur.container.content.x + (b.size.border.left + b.size.border.right) ≤
      cur.container.content.w)
    (hw : cur.container.content.w < wmod) (hx : cur.x < wmod)
    (hcxm : cur.container.content.x < wmod) :
    (inlineEntrySize b cur).content.w = textAvail b cur := by
  simp only [inlineEntrySize, textAvail, wadd, wsub, wmod] at *
  omega

theorem layoutInline_text (lg : LG) (t : GStr) (b : DomBox) (cur : BoxCursor)
    (hk : b.kind = .Text t) :
    layoutInline lg b cur =
      (let sz := inlineEntrySize b cur
       let width := strWidth t % wmod
       if sz.content.w = 0 then
         .ok (.mk b.kind sz b.style b.children,
              { cur with x := wadd cur.x sz.content.w }, .Reject)
       else if width > sz.content.w then
         let pos := findsplit t sz.content.w
         .ok (.mk (.Text (t.take pos)) sz b.style b.children,
              { cur with x := wadd cur.x sz.content.w },
              .CutHere (.mk (.Text (t.drop pos)) sz b.style []))
       else
         .ok (.mk b.kind { sz with content := { sz.content with w := width } } b.style b.children,
              { cur with x := wadd cur.x width }, .Normal)) := by
  simp only [layoutInline, hk]

/-- C2 (amended): a Text node at exact available width avail is laid out
in exactly one of three ways — avail 0 rejects; 0 < avail < display
width splits, keeping the first avail grapheme clusters and reporting
the remaining clusters as the continuation node, the split boundary
being a whole-grapheme boundary (head and tail concatenate back to the
original) at a grapheme index not exceeding avail; otherwise the
result is Normal. -/
theorem c2_text_layout (lg : LG) (t : GStr) (b : DomBox) (cur : BoxCursor)
    (hk : b.kind = .Text t)
    (hcx : cur.container.content.x ≤ cur.x)
    (hin : cur.x - cur.container.content.x + (b.size.border.left + b.size.border.right) ≤
      cur.container.content.w)
    (hw : cur.container.content.w < wmod) (hx : cur.x < wmod)
    (hcxm : cur.container.content.x < wmod)
    (hwidth : strWidth t < wmod) :
    (textAvail b cur = 0 →
      ∃ b' cur', layoutInline lg b cur = .ok (b', cur', .Reject)) ∧
    (0 < textAvail b cur → textAvail b cur < strWidth t →
      (∃ cur', layoutInline lg b cur =
        .ok (.mk (.Text (t.take (min (textAvail b cur) t.length)))
               (inlineEntrySize b cur) b.style b.children, cur',
             .CutHere (.mk (.Text (t.drop (min (textAvail b cur) t.length)))
               (inlineEntrySize b cur) b.style []))) ∧
      t.take (min (textAvail b cur) t.length) ++ t.drop (min (textAvail b cur) t.length) = t ∧
      min (textAvail b cur) t.length ≤ textAvail b cur) ∧
    (0 < textAvail b cur → strWidth t ≤ textAvail b cur →
      ∃ cur', layoutInline lg b cur =
        .ok (.mk b.kind
               { inlineEntrySize b cur with content :=
                   { (inlineEntrySize b cur).content with w := strWidth t } }
               b.style b.children, cur', .Normal)) := by
  have hwe := inlineEntry_w_eq b cur hcx hin hw hx hcxm
  have hmod : strWidth t % wmod = strWidth t := Nat.mod_eq_of_lt hwidth
  rw [layoutInline_text lg t b cur hk]
  simp only [hwe, hmod, findsplit]
  refine ⟨?_, ?_, ?_⟩
  · intro h0
    rw [if_pos h0]
    exact ⟨_, _, rfl⟩
  · intro h0 hlt
    rw [if_neg (by omega), if_pos hlt]
    exact ⟨⟨_, rfl⟩, List.take_append_drop _ t, Nat.min_le_left _ _⟩
  · intro h0 hle
    rw [if_neg (by omega), if_neg (by omega)]
    exact ⟨_, rfl⟩

def c2wT : GStr := [⟨"a", 1⟩, ⟨"b", 1⟩, ⟨"c", 1⟩]

def c2wBox : DomBox := .mk (.Text c2wT) {} {} []

def c2wCur : BoxCursor := ⟨⟨⟨0, 0, 2, 1⟩, {}⟩, 0, 0⟩

/-- Witness for c2_text_layout: "abc" at available width 2 splits into
"ab" kept and "c" as the continuation. -/
theorem c2_text_layout_witness :
    ∃ cur', layoutInline (layoutGeneric 1) c2wBox c2wCur =
      .ok (.mk (.Text (c2wT.take (min (textAvail c2wBox c2wCur) c2wT.length)))
             (inlineEntrySize c2wBox c2wCur) c2wBox.style c2wBox.children, cur',
           .CutHere (.mk (.Text (c2wT.drop (min (textAvail c2wBox c2wCur) c2wT.length)))
             (inlineEntrySize c2wBox c2wCur) c2wBox.style [])) :=
  (((c2_text_layout (layoutGeneric 1) c2wT c2wBox c2wCur rfl (by decide) (by decide)
      (by decide) (by decide) (by decide) (by decide)).2.1 (by decide) (by decide)).1)

def c2xT : GStr := [⟨"日", 2⟩, ⟨"日", 2⟩]

def c2xBox : DomBox := .mk (.Text c2xT) {} {} []

def c2xCur : BoxCursor := ⟨⟨⟨0, 0, 3, 1⟩, {}⟩, 0, 0⟩

/-- Display width of the prefix retained by the split at the
counterexample input. -/
def c2xHeadWidth : Nat :=
  match layoutInline (fun _ _ => .nofuel) c2xBox c2xCur with
  | .ok (b', _, .CutHere _) =>
    match b'.kind with
    | .Text t' => strWidth t'
    | _ => 0
  | _ => 0

/-- C2 counterexample: a text of two 2-column graphemes at available
width 3 splits, but the kept prefix has display width 4 — the split
boundary lies at display column 4, exceeding the available width 3,
contrary to the claim's "split point ... not exceeding the width". -/
theorem c2_counterexample :
    c2xHeadWidth = 4 ∧ textAvail c2xBox c2xCur = 3 ∧
      ¬(c2xHeadWidth ≤ textAvail c2xBox c2xCur) := by
  decide

def c1xT : GStr := [⟨"日", 2⟩, ⟨"日", 2⟩]

def c1xBox : DomBox := .mk (.Text c1xT) {} {} []

def c1xCur : BoxCursor := ⟨⟨⟨0, 0, 3, 1⟩, {}⟩, 0, 0⟩

/-- (retained display width, recorded content width) of the Text node
after layout at the failing input. -/
def c1xPair : Nat × Nat :=
  match layoutInline (fun _ _ => .nofuel) c1xBox c1xCur with
  | .ok (b', _, .CutHere _) =>
    match b'.kind with
    | .Text t' => (strWidth t', b'.size.content.w)
    | _ => (0, 0)
  | _ => (0, 0)

/-- C1 (code bug evidence): laying out a text of two 2-column grapheme
clusters at available width 3 keeps the whole text as the split head —
its display width is 4 while its content width is recorded as 3, so the
retained display width neither equals the content width nor respects
the available width, contradicting the renderer's own assertion that a
text's painted width fits its content width. -/
theorem c1_oversized_split_head :
    c1xPair = (4, 3) ∧ c1xPair.1 ≠ c1xPair.2 ∧ textAvail c1xBox c1xCur < c1xPair.1 := by
  decide

/-- C6 (amended): provided the cursor lies inside the enclosing
container's content span, a block-like node whose remaining width minus
its own left+right border would be non-positive gets content width 1,
and otherwise exactly the remaining width minus the borders, the u16
arithmetic computing the true value; an InlineContainer or List node
gets the same floor from the container width alone, unconditionally.
(Without the cursor-in-span hypothesis the u16 subtraction in
layout_block wraps around instead of flooring — see the
counterexample.) -/
theorem c6_min_width (b : DomBox) (cur : BoxCursor)
    (hcx : cur.container.content.x ≤ cur.x)
    (hxin : cur.x - cur.container.content.x ≤ cur.container.content.w)
    (hw : cur.container.content.w < wmod) (hx : cur.x < wmod)
    (hcxm : cur.container.content.x < wmod)
    (hbr : b.size.border.left + b.size.border.right < wmod) :
    (cur.container.content.w - (cur.x - cur.container.content.x) ≤
        b.size.border.left + b.size.border.right →
      (blockEntrySize b cur).content.w = 1) ∧
    (b.size.border.left + b.size.border.right <
        cur.container.content.w - (cur.x - cur.container.content.x) →
      (blockEntrySize b cur).content.w =
        cur.container.content.w - (cur.x - cur.container.content.x) -
          b.size.border.left - b.size.border.right) ∧
    (cur.container.content.w ≤ b.size.border.left + b.size.border.right →
      (icEntrySize b cur).content.w = 1) ∧
    (cur.container.content.w ≤ b.size.border.left + b.size.border.right →
      (listEntrySize b cur).content.w = 1) ∧
    (b.size.border.left + b.size.border.right < cur.container.content.w →
      (icEntrySize b cur).content.w =
        cur.container.content.w - b.size.border.left - b.size.border.right) ∧
    (b.size.border.left + b.size.border.right < cur.container.content.w →
      (listEntrySize b cur).content.w =
        cur.container.content.w - b.size.border.left - b.size.border.right) := by
  simp only [wmod] at hw hx hcxm hbr
  simp only [blockEntrySize, icEntrySize, listEntrySize, wadd, wsub, wmod]
  refine ⟨?_, ?_, ?_, ?_, ?_, ?_⟩ <;> intro h <;> split_ifs with hc <;> omega

def c6wBox : DomBox := .mk .Block { border := { left := 1, right := 1 } } {} []

def c6wCur : BoxCursor := ⟨⟨⟨0, 0, 1, 0⟩, {}⟩, 0, 0⟩

/-- Witness for c6_min_width: a width-1 container, node borders 1+1 —
the width floors to 1 for block, inline container and list geometry. -/
theorem c6_min_width_witness :
    (blockEntrySize c6wBox c6wCur).content.w = 1 ∧
    (icEntrySize c6wBox c6wCur).content.w = 1 ∧
    (listEntrySize c6wBox c6wCur).content.w = 1 := by
  have H := c6_min_width c6wBox c6wCur (by decide) (by decide) (by decide) (by decide)
    (by decide) (by decide)
  exact ⟨H.1 (by decide), H.2.2.1 (by decide), H.2.2.2.1 (by decide)⟩

def c6xBox : DomBox := .mk .Block {} { extend := true } []

def c6xCur : BoxCursor := ⟨⟨⟨0, 0, 1, 0⟩, {}⟩, 2, 0⟩

/-- Width assigned to the counterexample block by layout. -/
def c6xWidth : Nat :=
  match layoutGeneric 3 c6xBox c6xCur with
  | .ok (b', _, _) => b'.size.content.w
  | _ => 0

/-- C6 counterexample: a borderless Block with the extend flag, laid out
with the cursor two columns past the right edge of a width-1 container —
the remaining width is negative, so the claim requires the floor of 1,
but the u16 subtraction wraps and layout assigns width 65535 (and under
checked arithmetic the subtraction would abort instead). -/
theorem c6_counterexample : c6xWidth = 65535 ∧ c6xWidth ≠ 1 := by decide

theorem loopBlock_height (lg : LG) :
    ∀ (fuel : Nat) (done rest : List DomBox) (sub : BoxCursor) (h maxw : Nat)
      (cs : List DomBox) (sub' : BoxCursor) (hout mw : Nat),
      h < wmod →
      loopBlock lg fuel done rest sub h maxw = .ok (cs, sub', hout, mw) →
      ∃ tail, cs = done ++ tail ∧ hout = (h + heightSum tail) % wmod := by
  intro fuel
  induction fuel with
  | zero =>
      intro done rest sub h maxw cs sub' hout mw hh heq
      simp [loopBlock] at heq
  | succ fuel ih =>
      intro done rest sub h maxw cs sub' hout mw hh heq
      cases rest with
      | nil =>
          simp only [loopBlock, LOut.ok.injEq, Prod.mk.injEq] at heq
          obtain ⟨h1, h2, h3, h4⟩ := heq
          subst h1
          subst h3
          exact ⟨[], by simp, by simp [heightSum, Nat.mod_eq_of_lt hh]⟩
      | cons c rest =>
          by_cases hb : c.kind = .Break
          · simp only [loopBlock, if_pos hb] at heq
            exact ih done rest sub h maxw cs sub' hout mw hh heq
          · cases hlg : lg c sub with
            | nofuel =>
                simp only [loopBlock, if_neg hb, hlg] at heq
                exact LOut.noConfusion heq
            | fatal m =>
                simp only [loopBlock, if_neg hb, hlg] at heq
                exact LOut.noConfusion heq
            | ok val =>
                obtain ⟨c', sub2, res⟩ := val
                cases res with
                | Reject =>
                    simp only [loopBlock, if_neg hb, hlg] at heq
                    exact LOut.noConfusion heq
                | Normal =>
                    simp only [loopBlock, if_neg hb, hlg] at heq
                    obtain ⟨tail, ht, hh'⟩ :=
                      ih _ _ _ _ _ _ _ _ _ (wadd_lt _ _) heq
                    refine ⟨c' :: tail, by simpa using ht, ?_⟩
                    rw [hh']
                    simp only [heightSum, List.map_cons, List.sum_cons, outerHeight, wadd, wmod]
                    omega
                | CutHere next =>
                    simp only [loopBlock, if_neg hb, hlg] at heq
                    obtain ⟨tail, ht, hh'⟩ :=
                      ih _ _ _ _ _ _ _ _ _ (wadd_lt _ _) heq
                    refine ⟨c' :: tail, by simpa using ht, ?_⟩
                    rw [hh']
                    simp only [heightSum, List.map_cons, List.sum_cons, outerHeight, wadd, wmod]
                    omega

theorem layoutBlock_heights (lg : LG) (fuel : Nat) (b : DomBox) (cur : BoxCursor)
    (b' : DomBox) (cur' : BoxCursor) (r : LayoutRes DomBox)
    (heq : layoutBlock lg fuel b cur = .ok (b', cur', r)) :
    b'.size.content.h = heightSum b'.children % wmod := by
  cases hlb : loopBlock lg fuel [] b.children (subCursorOf (blockEntrySize b cur)) 0 0 with
  | nofuel =>
      simp only [layoutBlock, hlb] at heq
      exact LOut.noConfusion heq
  | fatal m =>
      simp only [layoutBlock, hlb] at heq
      exact LOut.noConfusion heq
  | ok val =>
      obtain ⟨cs, sub2, hh, mw⟩ := val
      simp only [layoutBlock, hlb, LOut.ok.injEq, Prod.mk.injEq] at heq
      obtain ⟨hb', hcur', hr⟩ := heq
      obtain ⟨tail, ht, hhout⟩ :=
        loopBlock_height lg fuel [] b.children _ 0 0 cs sub2 hh mw (by decide) hlb
      subst hb'
      simp only [DomBox.size_mk, DomBox.children_mk]
      rw [ht]
      simpa using hhout

theorem isBlock_false_of_kind {c : DomBox} (h : c.kind = .ListBullet) : isBlock c = false := by
  simp [isBlock, h]

theorem isBlock_true_of_kind {c : DomBox} (h : c.kind = .Block) : isBlock c = true := by
  simp [isBlock, h]

theorem heightSumBlocks_cons_false {c : DomBox} (h : isBlock c = false) (l : List DomBox) :
    heightSumBlocks (c :: l) = heightSumBlocks l := by
  simp [heightSumBlocks, List.filter_cons, h]

theorem heightSumBlocks_cons_true {c : DomBox} (h : isBlock c = true) (l : List DomBox) :
    heightSumBlocks (c :: l) = outerHeight c + heightSumBlocks l := by
  simp [heightSumBlocks, List.filter_cons, h]

theorem loopList_height (lg : LG)
    (hkp : ∀ c s c' s' r, lg c s = .ok (c', s', r) → isBlock c' = isBlock c) :
    ∀ (fuel : Nat) (done rest : List DomBox) (sub : BoxCursor) (h : Nat)
      (cs : List DomBox) (sub' : BoxCursor) (hout : Nat),
      h < wmod →
      loopList lg fuel done rest sub h = .ok (cs, sub', hout) →
      ∃ tail, cs = done ++ tail ∧ hout = (h + heightSumBlocks tail) % wmod := by
  intro fuel
  induction fuel with
  | zero =>
      intro done rest sub h cs sub' hout hh heq
      simp [loopList] at heq
  | succ fuel ih =>
      intro done rest sub h cs sub' hout hh heq
      cases rest with
      | nil =>
          simp only [loopList, LOut.ok.injEq, Prod.mk.injEq] at heq
          obtain ⟨h1, h2, h3⟩ := heq
          subst h1
          subst h3
          exact ⟨[], by simp, by simp [heightSumBlocks, Nat.mod_eq_of_lt hh]⟩
      | cons c rest =>
          by_cases hbul : c.kind = .ListBullet
          · cases hlg : lg c sub with
            | nofuel =>
                simp only [loopList, if_pos hbul, hlg] at heq
                exact LOut.noConfusion heq
            | fatal m =>
                simp only [loopList, if_pos hbul, hlg] at heq
                exact LOut.noConfusion heq
            | ok val =>
                obtain ⟨c', sub2, res⟩ := val
                have hcb : isBlock c' = false :=
                  (hkp c sub c' sub2 res hlg).trans (isBlock_false_of_kind hbul)
                cases res with
                | Reject =>
                    simp only [loopList, if_pos hbul, hlg] at heq
                    exact LOut.noConfusion heq
                | Normal =>
                    simp only [loopList, if_pos hbul, hlg] at heq
                    obtain ⟨tail, ht, hh'⟩ := ih _ _ _ _ _ _ _ hh heq
                    refine ⟨c' :: tail, by simpa using ht, ?_⟩
                    rw [hh', heightSumBlocks_cons_false hcb]
                | CutHere next =>
                    simp only [loopList, if_pos hbul, hlg] at heq
                    obtain ⟨tail, ht, hh'⟩ := ih _ _ _ _ _ _ _ hh heq
                    refine ⟨c' :: tail, by simpa using ht, ?_⟩
                    rw [hh', heightSumBlocks_cons_false hcb]
          · by_cases hblk : c.kind = .Block
            · cases hlg : lg c sub with
              | nofuel =>
                  simp only [loopList, if_neg hbul, if_pos hblk, hlg] at heq
                  exact LOut.noConfusion heq
              | fatal m =>
                  simp only [loopList, if_neg hbul, if_pos hblk, hlg] at heq
                  exact LOut.noConfusion heq
              | ok val =>
                  obtain ⟨c', sub2, res⟩ := val
                  have hcb : isBlock c' = true :=
                    (hkp c sub c' sub2 res hlg).trans (isBlock_true_of_kind hblk)
                  cases res with
                  | Reject =>
                      simp only [loopList, if_neg hbul, if_pos hblk, hlg] at heq
                      exact LOut.noConfusion heq
                  | Normal =>
                      simp only [loopList, if_neg hbul, if_pos hblk, hlg] at heq
                      obtain ⟨tail, ht, hh'⟩ := ih _ _ _ _ _ _ _ (wadd_lt _ _) heq
                      refine ⟨c' :: tail, by simpa using ht, ?_⟩
                      rw [hh', heightSumBlocks_cons_true hcb]
                      simp only [outerHeight, wadd, wmod]
                      omega
                  | CutHere next =>
                      simp only [loopList, if_neg hbul, if_pos hblk, hlg] at heq
                      obtain ⟨tail, ht, hh'⟩ := ih _ _ _ _ _ _ _ (wadd_lt _ _) heq
                      refine ⟨c' :: tail, by simpa using ht, ?_⟩
                      rw [hh', heightSumBlocks_cons_true hcb]
                      simp only [outerHeight, wadd, wmod]
                      omega
            · simp only [loopList, if_neg hbul, if_neg hblk] at heq
              exact LOut.noConfusion heq

theorem layoutList_heights (lg : LG)
    (hkp : ∀ c s c' s' r, lg c s = .ok (c', s', r) → isBlock c' = isBlock c)
    (fuel : Nat) (b : DomBox) (cur : BoxCursor)
    (b' : DomBox) (cur' : BoxCursor) (r : LayoutRes DomBox)
    (heq : layoutList lg fuel b cur = .ok (b', cur', r)) :
    b'.size.content.h = heightSumBlocks b'.children % wmod := by
  cases hll : loopList lg fuel [] b.children (subCursorOf (listEntrySize b cur)) 0 with
  | nofuel =>
      simp only [layoutList, hll] at heq
      exact LOut.noConfusion heq
  | fatal m =>
      simp only [layoutList, hll] at heq
      exact LOut.noConfusion heq
  | ok val =>
      obtain ⟨cs, sub2, hh⟩ := val
      simp only [layoutList, hll, LOut.ok.injEq, Prod.mk.injEq] at heq
      obtain ⟨hb', hcur', hr⟩ := heq
      obtain ⟨tail, ht, hhout⟩ :=
        loopList_height lg hkp fuel [] b.children _ 0 cs sub2 hh (by decide) hll
      subst hb'
      simp only [DomBox.size_mk, DomBox.children_mk]
      rw [ht]
      simpa using hhout

theorem inlineChildrenLoop_kind (lg : LG) (b : DomBox) (res : LayoutRes DomBox) (dorej : Bool)
    (b' : DomBox) (r : LayoutRes DomBox)
    (heq : inlineChildrenLoop lg b res dorej = .ok (b', r)) : b'.kind = b.kind := by
  cases hlp : loopInline lg b.kind b.size b.style dorej [] b.children (subCursorOf b.size) res with
  | nofuel =>
      simp only [inlineChildrenLoop, hlp] at heq
      exact LOut.noConfusion heq
  | fatal m =>
      simp only [inlineChildrenLoop, hlp] at heq
      exact LOut.noConfusion heq
  | ok val =>
      obtain ⟨cs, sub2, res2⟩ := val
      simp only [inlineChildrenLoop, hlp, LOut.ok.injEq, Prod.mk.injEq] at heq
      obtain ⟨hb', hr⟩ := heq
      subst hb'
      simp

theorem layoutBlock_kind (lg : LG) (fuel : Nat) (b : DomBox) (cur : BoxCursor)
    (b' : DomBox) (cur' : BoxCursor) (r : LayoutRes DomBox)
    (heq : layoutBlock lg fuel b cur = .ok (b', cur', r)) : b'.kind = b.kind := by
  cases hlb : loopBlock lg fuel [] b.children (subCursorOf (blockEntrySize b cur)) 0 0 with
  | nofuel =>
      simp only [layoutBlock, hlb] at heq
      exact LOut.noConfusion heq
  | fatal m =>
      simp only [layoutBlock, hlb] at heq
      exact LOut.noConfusion heq
  | ok val =>
      obtain ⟨cs, sub2, hh, mw⟩ := val
      simp only [layoutBlock, hlb, LOut.ok.injEq, Prod.mk.injEq] at heq
      obtain ⟨hb', hcur', hr⟩ := heq
      subst hb'
      simp

theorem layoutList_kind (lg : LG) (fuel : Nat) (b : DomBox) (cur : BoxCursor)
    (b' : DomBox) (cur' : BoxCursor) (r : LayoutRes DomBox)
    (heq : layoutList lg fuel b cur = .ok (b', cur', r)) : b'.kind = b.kind := by
  cases hll : loopList lg fuel [] b.children (subCursorOf (listEntrySize b cur)) 0 with
  | nofuel =>
      simp only [layoutList, hll] at heq
      exact LOut.noConfusion heq
  | fatal m =>
      simp only [layoutList, hll] at heq
      exact LOut.noConfusion heq
  | ok val =>
      obtain ⟨cs, sub2, hh⟩ := val
      simp only [layoutList, hll, LOut.ok.injEq, Prod.mk.injEq] at heq
      obtain ⟨hb', hcur', hr⟩ := heq
      subst hb'
      simp

theorem layoutIC_kind (lg : LG) (b : DomBox) (cur : BoxCursor)
    (b' : DomBox) (cur' : BoxCursor) (r : LayoutRes DomBox)
    (heq : layoutIC lg b cur = .ok (b', cur', r)) : b'.kind = b.kind := by
  cases hic : inlineChildrenLoop lg
      (.mk b.kind (icEntrySize b cur) b.style b.children) .Normal false with
  | nofuel =>
      simp only [layoutIC, hic] at heq
      exact LOut.noConfusion heq
  | fatal m =>
      simp only [layoutIC, hic] at heq
      exact LOut.noConfusion heq
  | ok val =>
      obtain ⟨b2, res2⟩ := val
      have hk2 := inlineChildrenLoop_kind lg _ .Normal false b2 res2 hic
      simp only [layoutIC, hic, LOut.ok.injEq, Prod.mk.injEq] at heq
      obtain ⟨hb', hcur', hr⟩ := heq
      subst hb'
      simpa using hk2

theorem isBlock_eq_of_kind {a b : DomBox} (h : a.kind = b.kind) : isBlock a = isBlock b := by
  unfold isBlock
  rw [h]

theorem layoutInline_isBlock (lg : LG) (b : DomBox) (cur : BoxCursor)
    (b' : DomBox) (cur' : BoxCursor) (r : LayoutRes DomBox)
    (heq : layoutInline lg b cur = .ok (b', cur', r)) : isBlock b' = isBlock b := by
  cases hk : b.kind with
  | Text t =>
      simp only [layoutInline, hk] at heq
      split_ifs at heq with h1 h2 <;>
        · simp only [LOut.ok.injEq, Prod.mk.injEq] at heq
          obtain ⟨hb', hcur', hr⟩ := heq
          subst hb'
          simp [isBlock, hk]
  | Inline =>
      simp only [layoutInline, hk] at heq
      cases hic : inlineChildrenLoop lg
          (.mk BoxKind.Inline (inlineEntrySize b cur) b.style b.children) .Normal true with
      | nofuel =>
          rw [hic] at heq
          exact LOut.noConfusion heq
      | fatal m =>
          rw [hic] at heq
          exact LOut.noConfusion heq
      | ok val =>
          obtain ⟨b2, res2⟩ := val
          have hk2 := inlineChildrenLoop_kind lg _ .Normal true b2 res2 hic
          simp only [hic, LOut.ok.injEq, Prod.mk.injEq] at heq
          obtain ⟨hb', hcur', hr⟩ := heq
          subst hb'
          simp only [DomBox.kind_mk] at hk2
          unfold isBlock
          rw [hk2, hk]
  | Break => simp only [layoutInline, hk] at heq; exact LOut.noConfusion heq
  | InlineContainer => simp only [layoutInline, hk] at heq; exact LOut.noConfusion heq
  | Block => simp only [layoutInline, hk] at heq; exact LOut.noConfusion heq
  | Header l => simp only [layoutInline, hk] at heq; exact LOut.noConfusion heq
  | List s => simp only [layoutInline, hk] at heq; exact LOut.noConfusion heq
  | ListBullet => simp only [layoutInline, hk] at heq; exact LOut.noConfusion heq
  | Table => simp only [layoutInline, hk] at heq; exact LOut.noConfusion heq
  | TableColumn => simp only [layoutInline, hk] at heq; exact LOut.noConfusion heq
  | TableItem => simp only [layoutInline, hk] at heq; exact LOut.noConfusion heq
  | Image => simp only [layoutInline, hk] at heq; exact LOut.noConfusion heq

theorem layoutGeneric_isBlock (fuel : Nat) (c : DomBox) (s : BoxCursor)
    (c' : DomBox) (s' : BoxCursor) (r : LayoutRes DomBox)
    (heq : layoutGeneric fuel c s = .ok (c', s', r)) : isBlock c' = isBlock c := by
  cases fuel with
  | zero => simp only [layoutGeneric] at heq; exact LOut.noConfusion heq
  | succ fuel =>
      cases hk : c.kind with
      | Block =>
          simp only [layoutGeneric, hk] at heq
          exact isBlock_eq_of_kind (layoutBlock_kind _ _ _ _ _ _ _ heq)
      | ListBullet =>
          simp only [layoutGeneric, hk] at heq
          exact isBlock_eq_of_kind (layoutBlock_kind _ _ _ _ _ _ _ heq)
      | Header l =>
          simp only [layoutGeneric, hk] at heq
          exact isBlock_eq_of_kind (layoutBlock_kind _ _ _ _ _ _ _ heq)
      | InlineContainer =>
          simp only [layoutGeneric, hk] at heq
          exact isBlock_eq_of_kind (layoutIC_kind _ _ _ _ _ _ heq)
      | List st =>
          simp only [layoutGeneric, hk] at heq
          exact isBlock_eq_of_kind (layoutList_kind _ _ _ _ _ _ _ heq)
      | Text t =>
          simp only [layoutGeneric, hk] at heq
          have := layoutInline_isBlock _ _ _ _ _ _ heq
          rwa [isBlock_eq_of_kind (show c.kind = c.kind from rfl)] at this
      | Inline =>
          simp only [layoutGeneric, hk] at heq
          exact layoutInline_isBlock _ _ _ _ _ _ heq
      | Break => simp only [layoutGeneric, hk] at heq; exact LOut.noConfusion heq
      | Table => simp only [layoutGeneric, hk] at heq; exact LOut.noConfusion heq
      | TableColumn => simp only [layoutGeneric, hk] at heq; exact LOut.noConfusion heq
      | TableItem => simp only [layoutGeneric, hk] at heq; exact LOut.noConfusion heq
      | Image => simp only [layoutGeneric, hk] at heq; exact LOut.noConfusion heq

/-- C3 (amended): after layout, a Block-like node's content height is
the sum (in u16 arithmetic) of the outer heights of all of its children,
but a List node's content height is the sum of the outer heights of its
Block children only — its ListBullet children, laid out beside the item
bodies rather than stacked, do not contribute. -/
theorem c3_heights :
    (∀ (lg : LG) (fuel : Nat) (b : DomBox) (cur : BoxCursor) (b' : DomBox)
       (cur' : BoxCursor) (r : LayoutRes DomBox),
       layoutBlock lg fuel b cur = .ok (b', cur', r) →
       b'.size.content.h = heightSum b'.children % wmod) ∧
    (∀ (lg : LG),
       (∀ c s c' s' r, lg c s = .ok (c', s', r) → isBlock c' = isBlock c) →
       ∀ (fuel : Nat) (b : DomBox) (cur : BoxCursor) (b' : DomBox)
         (cur' : BoxCursor) (r : LayoutRes DomBox),
         layoutList lg fuel b cur = .ok (b', cur', r) →
         b'.size.content.h = heightSumBlocks b'.children % wmod) :=
  ⟨fun lg fuel b cur b' cur' r heq => layoutBlock_heights lg fuel b cur b' cur' r heq,
   fun lg hkp fuel b cur b' cur' r heq => layoutList_heights lg hkp fuel b cur b' cur' r heq⟩

def c3xG : Grapheme := ⟨"a", 1⟩

def c3xIC : DomBox := .mk .InlineContainer {} {} [.mk (.Text [c3xG]) {} {} []]

def c3xBullet : DomBox := .mk .ListBullet {} {} [c3xIC]

def c3xBlock : DomBox := .mk .Block {} {} [c3xIC]

def c3xList : DomBox := .mk (.List (some 1)) {} {} [c3xBullet, c3xBlock]

def c3xCur : BoxCursor := ⟨⟨⟨0, 0, 10, 0⟩, {}⟩, 0, 0⟩

/-- The laid-out counterexample list. -/
def c3xOut : DomBox :=
  match layoutGeneric 10 c3xList c3xCur with
  | .ok (b', _, _) => b'
  | _ => emptyBox

/-- C3 counterexample: a List with a labeled bullet (outer height 1) and
a one-line item body (outer height 1) is laid out with content height 1,
while the sum of its children's outer heights is 2 — the ListBullet
child does not contribute, refuting the claim for List nodes. -/
theorem c3_counterexample :
    c3xOut.size.content.h = 1 ∧ heightSum c3xOut.children = 2 ∧
      c3xOut.size.content.h ≠ heightSum c3xOut.children := by
  decide

/-- The laid-out witness list (same tree, through layout_list itself). -/
def c3wOut : DomBox :=
  match layoutList (layoutGeneric 9) 9 c3xList c3xCur with
  | .ok (b', _, _) => b'
  | _ => emptyBox

/-- The laid-out witness block. -/
def c3wOutB : DomBox :=
  match layoutBlock (layoutGeneric 9) 9 c3xBlock c3xCur with
  | .ok (b', _, _) => b'
  | _ => emptyBox

/-- Witness for c3_heights: the height equations hold for a concrete
laid-out Block and a concrete laid-out List. -/
theorem c3_heights_witness :
    c3wOutB.size.content.h = heightSum c3wOutB.children % wmod ∧
    c3wOut.size.content.h = heightSumBlocks c3wOut.children % wmod := by
  constructor
  · have hbool : (match layoutBlock (layoutGeneric 9) 9 c3xBlock c3xCur with
                  | LOut.ok _ => true
                  | _ => false) = true := rfl
    cases hrun : layoutBlock (layoutGeneric 9) 9 c3xBlock c3xCur with
    | ok val =>
        obtain ⟨b', cur', r⟩ := val
        have hb := c3_heights.1 (layoutGeneric 9) 9 c3xBlock c3xCur b' cur' r hrun
        unfold c3wOutB
        rw [hrun]
        exact hb
    | fatal m => rw [hrun] at hbool; simp at hbool
    | nofuel => rw [hrun] at hbool; simp at hbool
  · have hbool : (match layoutList (layoutGeneric 9) 9 c3xList c3xCur with
                  | LOut.ok _ => true
                  | _ => false) = true := rfl
    cases hrun : layoutList (layoutGeneric 9) 9 c3xList c3xCur with
    | ok val =>
        obtain ⟨b', cur', r⟩ := val
        have hb := c3_heights.2 (layoutGeneric 9)
          (fun c s c' s' r hq => layoutGeneric_isBlock 9 c s c' s' r hq)
          9 c3xList c3xCur b' cur' r hrun
        unfold c3wOut
        rw [hrun]
        exact hb
    | fatal m => rw [hrun] at hbool; simp at hbool
    | nofuel => rw [hrun] at hbool; simp at hbool
